import Mathlib

/-!
# Verification of the sales-analysis aggregation engine

A shallow embedding of the computational core of `sales_analysis.py`
(`SalesAnalyzer`: `clean_data`, the group-aggregate-sort analyses,
`pareto_analysis`) and of `sales_dashboard.py` (`apply_filters`,
`render_kpis`), together with theorems settling the specified contracts.

Modelling conventions:
* A dataframe is a `List SalesRecord` (rows in order).  Monetary amounts and
  quantities are integers (`Int`), as in the data set; derived ratio columns
  (profit margins, percentage shares) are `Option ℚ`, where `none` models the
  IEEE NaN/inf that Python float division by zero produces (pandas does not
  raise on division by zero; NumPy warnings are suppressed by the script).
  NaN compares false against every number, which `optLeB`/`optGtB` reproduce.
* `OrderDate` is modelled already parsed (a `Date` record); `pd.to_datetime`
  is the identity on an already-parsed datetime column.
* `df.groupby(col)` uses the default `sort=True`: the distinct keys in
  ascending order.  `sort_values(..., ascending=False)` is modelled by a
  descending insertion sort.  This is faithful only up to the order *within
  a class of tied Sales values*: the program's default `kind='quicksort'`
  is documented as not stable (NumPy's introsort reorders tied entries once
  a partition exceeds its ~16-element insertion-sort threshold), so the
  real tie order is unspecified.  Accordingly, no theorem below depends on
  the model's tie order: every statement about a sorted output is invariant
  under permuting rows with equal Sales.
* `df.head(n)` follows the Python slice `df.iloc[:n]`: the first `n` rows
  for `n ≥ 0`, and all but the last `|n|` rows for `n < 0`.
-/

namespace SalesSpec

/-- First-occurrence deduplication, as `DataFrame.drop_duplicates()` (keeps
the first of each group of fully identical rows, preserving row order). -/
def dropDuplicates {α : Type} [DecidableEq α] : List α → List α
  | [] => []
  | a :: l => a :: (dropDuplicates l).filter (fun b => b ≠ a)

/-- `df.head(n)` / `df.iloc[:n]`: first `n` rows when `0 ≤ n`, otherwise all
rows except the last `|n|` (Python negative-slice semantics). -/
def pandasHead {α : Type} (n : Int) (l : List α) : List α :=
  if 0 ≤ n then l.take n.toNat else l.take (l.length - (-n).toNat)

/-- Float division `(a / b) * 100` on exact integer inputs: `none` models the
NaN/inf a zero denominator produces in float arithmetic. -/
def pctDiv (a b : Int) : Option ℚ :=
  if b = 0 then none else some ((a : ℚ) / (b : ℚ) * 100)

/-- NaN-aware `x <= c` (NumPy: any comparison with NaN is false). -/
def optLeB (x : Option ℚ) (c : ℚ) : Bool :=
  match x with
  | none => false
  | some v => decide (v ≤ c)

/-- NaN-aware `x > c` (NumPy: any comparison with NaN is false). -/
def optGtB (x : Option ℚ) (c : ℚ) : Bool :=
  match x with
  | none => false
  | some v => decide (c < v)

/-- NaN-propagating addition of float values. -/
def addO : Option ℚ → Option ℚ → Option ℚ
  | some a, some b => some (a + b)
  | _, _ => none

/-- Inclusive running sums (`Series.cumsum()`) with NaN propagation,
starting from accumulator `acc`. -/
def cumsumFrom (acc : Option ℚ) : List (Option ℚ) → List (Option ℚ)
  | [] => []
  | x :: xs => addO acc x :: cumsumFrom (addO acc x) xs

/-- Inclusive running sums of a float column (`Series.cumsum()`). -/
def cumsum (l : List (Option ℚ)) : List (Option ℚ) :=
  cumsumFrom (some 0) l

/-- Exact-arithmetic inclusive running sums, used in specifications. -/
def cumsumQFrom (acc : ℚ) : List ℚ → List ℚ
  | [] => []
  | x :: xs => (acc + x) :: cumsumQFrom (acc + x) xs

/-- Boolean-mask selection `series[mask]` (positional). -/
def maskSel {α : Type} : List α → List Bool → List α
  | [], _ => []
  | _, [] => []
  | a :: l, b :: m => if b then a :: maskSel l m else maskSel l m

/-- A calendar date, already parsed (`pd.to_datetime` output). -/
structure Date where
  year : Int
  month : Nat
  day : Nat
deriving DecidableEq, Repr

/-- Chronological comparison of parsed dates (timestamp order). -/
def Date.ble (d e : Date) : Bool :=
  d.year < e.year ||
    (d.year = e.year && (d.month < e.month ||
      (d.month = e.month && d.day ≤ e.day)))

/-- A row of the sales table.  The raw CSV columns come first; the last four
fields are the derived columns `Month`, `MonthName`, `Year`, `Profit_Margin`
that `clean_data` (re)computes.  Keeping slots for them lets re-cleaning be
expressed as an endo-function, as in the script where the derived columns are
simply overwritten. -/
structure SalesRecord where
  orderID : Int
  customerName : String
  productName : String
  category : String
  region : String
  orderDate : Date
  sales : Int
  profit : Int
  quantity : Int
  month : Nat
  monthName : String
  year : Int
  profitMargin : Option ℚ
deriving DecidableEq, Repr

/-- `OrderDate.dt.strftime('%B')`: the English month name. -/
def monthNameOf : Nat → String
  | 1 => "January"
  | 2 => "February"
  | 3 => "March"
  | 4 => "April"
  | 5 => "May"
  | 6 => "June"
  | 7 => "July"
  | 8 => "August"
  | 9 => "September"
  | 10 => "October"
  | 11 => "November"
  | 12 => "December"
  | _ => ""

/-- The per-record part of `clean_data`: recompute the derived columns
`Month`, `MonthName`, `Year` from `OrderDate` and `Profit_Margin` from
`Profit / Sales * 100` (NaN when `Sales = 0`). -/
def cleanRecord (r : SalesRecord) : SalesRecord :=
  { r with
    month := r.orderDate.month
    monthName := monthNameOf r.orderDate.month
    year := r.orderDate.year
    profitMargin := pctDiv r.profit r.sales }

/-- `SalesAnalyzer.clean_data`: parse dates (identity here, dates being
already parsed), recompute the derived columns, then `drop_duplicates()`. -/
def clean_data (df : List SalesRecord) : List SalesRecord :=
  dropDuplicates (df.map cleanRecord)

/-- The distinct values of a grouping column, in ascending order: the group
keys of `df.groupby(col)` with the default `sort=True`. -/
def groupKeys {K : Type} [LinearOrder K] [DecidableEq K]
    (df : List SalesRecord) (key : SalesRecord → K) : List K :=
  List.insertionSort (· ≤ ·) (dropDuplicates (df.map key))

/-- The rows of one group: `df[df[col] == k]`. -/
def groupOf {K : Type} [DecidableEq K]
    (df : List SalesRecord) (key : SalesRecord → K) (k : K) : List SalesRecord :=
  df.filter (fun r => key r = k)

/-- One output row of the aggregation engine: summed `Sales`, `Profit`,
`Quantity`, the contributing-order count, and the post-aggregation
`Profit_Margin = ΣProfit / ΣSales * 100`. -/
structure AggRow where
  sales : Int
  profit : Int
  quantity : Int
  orderCount : Nat
  profitMargin : Option ℚ
deriving DecidableEq, Repr

/-- The aggregate row of group `k`: `.agg({'Sales': 'sum', 'Profit': 'sum',
'Quantity': 'sum', 'OrderID': 'count'})` followed by the `Profit_Margin`
column computed from the summed values. -/
def aggRowFor {K : Type} [DecidableEq K]
    (df : List SalesRecord) (key : SalesRecord → K) (k : K) : AggRow :=
  { sales := ((groupOf df key k).map (·.sales)).sum
    profit := ((groupOf df key k).map (·.profit)).sum
    quantity := ((groupOf df key k).map (·.quantity)).sum
    orderCount := (groupOf df key k).length
    profitMargin := pctDiv ((groupOf df key k).map (·.profit)).sum
      ((groupOf df key k).map (·.sales)).sum }

/-- `df.groupby(key).agg(...)` plus the derived margin column: one row per
distinct key, rows in ascending key order. -/
def aggregateBy {K : Type} [LinearOrder K] [DecidableEq K]
    (df : List SalesRecord) (key : SalesRecord → K) : List (K × AggRow) :=
  (groupKeys df key).map (fun k => (k, aggRowFor df key k))

/-- `sort_values('Sales', ascending=False)`: a descending sort by the
summed-Sales projection.  Faithful to the program only up to the order
within a tie class: the pandas default `kind='quicksort'` leaves the order
of tied rows unspecified (NumPy introsort is unstable above its
insertion-sort threshold), so results proved from this definition must not
depend on the model's particular tie order. -/
def sort_values_desc {β : Type} (salesOf : β → Int) (rows : List β) : List β :=
  List.insertionSort (fun p q => salesOf q ≤ salesOf p) rows

/-- `top_products_analysis` before truncation (`product_analysis` in the
script): group by `ProductName`, aggregate, sort descending by `Sales`. -/
def product_analysis (df : List SalesRecord) : List (String × AggRow) :=
  sort_values_desc (fun p => p.2.sales) (aggregateBy df (·.productName))

/-- `top_products_analysis(top_n)`: the sorted aggregate truncated with
`.head(top_n)`. -/
def top_products_analysis (df : List SalesRecord) (top_n : Int) :
    List (String × AggRow) :=
  pandasHead top_n (product_analysis df)

/-- `top_customers_analysis` before truncation. -/
def customer_analysis (df : List SalesRecord) : List (String × AggRow) :=
  sort_values_desc (fun p => p.2.sales) (aggregateBy df (·.customerName))

/-- `top_customers_analysis(top_n)`. -/
def top_customers_analysis (df : List SalesRecord) (top_n : Int) :
    List (String × AggRow) :=
  pandasHead top_n (customer_analysis df)

/-- An aggregate row extended with the `Sales_Percentage` column that the
regional and category analyses attach. -/
structure PctRow where
  agg : AggRow
  salesPercentage : Option ℚ
deriving DecidableEq, Repr

/-- Attach `Sales_Percentage = row.Sales / aggregate['Sales'].sum() * 100`
to every aggregate row (the denominator is the sum of the aggregated Sales
column, as in the script). -/
def attachSalesPct {K : Type}
    (rows : List (K × AggRow)) : List (K × PctRow) :=
  rows.map (fun p =>
    (p.1, { agg := p.2
            salesPercentage := pctDiv p.2.sales ((rows.map (·.2.sales)).sum) }))

/-- `regional_analysis`: group by `Region`, aggregate, attach
`Sales_Percentage`, sort descending by `Sales`. -/
def regional_analysis (df : List SalesRecord) : List (String × PctRow) :=
  sort_values_desc (fun p => p.2.agg.sales)
    (attachSalesPct (aggregateBy df (·.region)))

/-- `category_analysis`: group by `Category`, aggregate, attach
`Sales_Percentage`, sort descending by `Sales`. -/
def category_analysis (df : List SalesRecord) : List (String × PctRow) :=
  sort_values_desc (fun p => p.2.agg.sales)
    (attachSalesPct (aggregateBy df (·.category)))

/-- The grouping key of `monthly_trend_analysis`:
`groupby(['Year', 'Month', 'MonthName'])`. -/
structure MonthKey where
  year : Int
  month : Nat
  monthName : String
deriving DecidableEq, Repr

/-- The lexicographic image of a `MonthKey`, giving the order in which
pandas sorts the `(Year, Month, MonthName)` group keys. -/
def MonthKey.lexKey (k : MonthKey) : Int ×ₗ (Nat ×ₗ String) :=
  toLex (k.year, toLex (k.month, k.monthName))

instance : LinearOrder MonthKey :=
  LinearOrder.lift' MonthKey.lexKey (by
    intro a b h
    cases a
    cases b
    simp only [MonthKey.lexKey, toLex_inj, Prod.mk.injEq] at h
    obtain ⟨h1, h2, h3⟩ := h
    simp_all)

/-- `monthly_trend_analysis`: group by `(Year, Month, MonthName)`, aggregate,
`reset_index()` (no re-sort: rows stay in ascending group-key order). -/
def monthly_trend_analysis (df : List SalesRecord) : List (MonthKey × AggRow) :=
  aggregateBy df (fun r => MonthKey.mk r.year r.month r.monthName)

/-- `pareto_analysis`, step 1:
`clean_df.groupby(column)[metric].sum().sort_values(ascending=False)`. -/
def pareto_data {K : Type} [LinearOrder K] [DecidableEq K]
    (df : List SalesRecord) (key : SalesRecord → K) (metric : SalesRecord → Int) :
    List (K × Int) :=
  sort_values_desc (fun p => p.2)
    ((groupKeys df key).map (fun k =>
      (k, ((groupOf df key k).map metric).sum)))

/-- `total = pareto_data.sum()`. -/
def pareto_total {K : Type} [LinearOrder K] [DecidableEq K]
    (df : List SalesRecord) (key : SalesRecord → K) (metric : SalesRecord → Int) :
    Int :=
  ((pareto_data df key metric).map (·.2)).sum

/-- `pareto_data_pct = (pareto_data / total) * 100` (float division: every
entry is NaN when the total is zero). -/
def pareto_data_pct {K : Type} [LinearOrder K] [DecidableEq K]
    (df : List SalesRecord) (key : SalesRecord → K) (metric : SalesRecord → Int) :
    List (K × Option ℚ) :=
  (pareto_data df key metric).map
    (fun p => (p.1, pctDiv p.2 (pareto_total df key metric)))

/-- `cumulative_pct = pareto_data_pct.cumsum()` (values only; the index is
that of `pareto_data_pct`). -/
def cumulative_pct {K : Type} [LinearOrder K] [DecidableEq K]
    (df : List SalesRecord) (key : SalesRecord → K) (metric : SalesRecord → Int) :
    List (Option ℚ) :=
  cumsum ((pareto_data_pct df key metric).map (·.2))

/-- `threshold_80 = pareto_data_pct[cumulative_pct <= 80]`: the head set. -/
def threshold_80 {K : Type} [LinearOrder K] [DecidableEq K]
    (df : List SalesRecord) (key : SalesRecord → K) (metric : SalesRecord → Int) :
    List (K × Option ℚ) :=
  maskSel (pareto_data_pct df key metric)
    ((cumulative_pct df key metric).map (fun c => optLeB c 80))

/-- `threshold_20 = pareto_data_pct[cumulative_pct > 80]`: the tail set. -/
def threshold_20 {K : Type} [LinearOrder K] [DecidableEq K]
    (df : List SalesRecord) (key : SalesRecord → K) (metric : SalesRecord → Int) :
    List (K × Option ℚ) :=
  maskSel (pareto_data_pct df key metric)
    ((cumulative_pct df key metric).map (fun c => optGtB c 80))

/-- The number of distinct values of a grouping column present in the
input (the row count of the untruncated aggregate). -/
def distinct_group_count {K : Type} [DecidableEq K]
    (df : List SalesRecord) (key : SalesRecord → K) : Nat :=
  (dropDuplicates (df.map key)).length

/-- The metric column of `pareto_data` (group totals, descending). -/
def pareto_values {K : Type} [LinearOrder K] [DecidableEq K]
    (df : List SalesRecord) (key : SalesRecord → K) (metric : SalesRecord → Int) :
    List Int :=
  (pareto_data df key metric).map (·.2)

/-- The exact cumulative percentage up to and including position `i` of the
descending-sorted Pareto curve: `Σ_{j ≤ i} value_j / total * 100`. -/
def cumulative_exact {K : Type} [LinearOrder K] [DecidableEq K]
    (df : List SalesRecord) (key : SalesRecord → K) (metric : SalesRecord → Int)
    (i : Nat) : ℚ :=
  (((pareto_values df key metric).take (i + 1)).map
    (fun v : Int => (v : ℚ) / ((pareto_total df key metric : Int) : ℚ) * 100)).sum

/-- The percentage share of the first (largest) group of the Pareto curve. -/
def first_pct {K : Type} [LinearOrder K] [DecidableEq K]
    (df : List SalesRecord) (key : SalesRecord → K) (metric : SalesRecord → Int) :
    ℚ :=
  ((pareto_values df key metric).headI : ℚ) /
    ((pareto_total df key metric : Int) : ℚ) * 100

/-- The region step of `apply_filters`: `if regions: filtered =
filtered[filtered['Region'].isin(regions)]` — a no-op when the selection
list is empty (an empty Python list is falsy). -/
def filterRegions (l : List SalesRecord) (regions : List String) :
    List SalesRecord :=
  if regions ≠ [] then l.filter (fun r => r.region ∈ regions) else l

/-- The category step of `apply_filters`, analogous to `filterRegions`. -/
def filterCategories (l : List SalesRecord) (categories : List String) :
    List SalesRecord :=
  if categories ≠ [] then l.filter (fun r => r.category ∈ categories) else l

/-- `apply_filters` from the dashboard: restrict to the date range, then to
the selected regions if any are selected, then to the selected categories
if any are selected. -/
def apply_filters (df : List SalesRecord) (start_date end_date : Date)
    (regions categories : List String) : List SalesRecord :=
  filterCategories
    (filterRegions
      (df.filter (fun r =>
        Date.ble start_date r.orderDate && Date.ble r.orderDate end_date))
      regions)
    categories

/-- The six top-line KPI values of `render_kpis`. -/
structure Kpis where
  totalSales : Int
  totalProfit : Int
  totalOrders : Nat
  totalQuantity : Int
  aov : ℚ
  margin : ℚ
deriving DecidableEq, Repr

/-- `render_kpis` from the dashboard: totals fall back to `0` on an empty
frame, average order value is guarded against zero orders and the overall
margin against non-positive total sales. -/
def render_kpis (df : List SalesRecord) : Kpis :=
  let totalSales : Int := if df.isEmpty then 0 else (df.map (·.sales)).sum
  let totalProfit : Int := if df.isEmpty then 0 else (df.map (·.profit)).sum
  let totalOrders : Nat := df.length
  let totalQuantity : Int := if df.isEmpty then 0 else (df.map (·.quantity)).sum
  { totalSales := totalSales
    totalProfit := totalProfit
    totalOrders := totalOrders
    totalQuantity := totalQuantity
    aov := if 0 < totalOrders then (totalSales : ℚ) / (totalOrders : ℚ) else 0
    margin := if 0 < totalSales then (totalProfit : ℚ) / (totalSales : ℚ) * 100
      else 0 }

/-- A record constructor for concrete fixtures, with the derived columns
already coherent with `OrderDate` (i.e. in `clean_data` normal form). -/
def mkRec (oid : Int) (cust prod cat reg : String) (d : Date)
    (sales profit qty : Int) : SalesRecord :=
  { orderID := oid
    customerName := cust
    productName := prod
    category := cat
    region := reg
    orderDate := d
    sales := sales
    profit := profit
    quantity := qty
    month := d.month
    monthName := monthNameOf d.month
    year := d.year
    profitMargin := pctDiv profit sales }

/-- One-row fixture (cleaned form of a row of the script's sample data). -/
def sampleOne : List SalesRecord :=
  [mkRec 1 "Alice" "Smartphone" "Electronics" "North" ⟨2023, 1, 5⟩ 20000 3000 1]

/-- Two-row fixture with two distinct products, customers and regions. -/
def sampleTwo : List SalesRecord :=
  [mkRec 1 "Alice" "Smartphone" "Electronics" "North" ⟨2023, 1, 5⟩ 20000 3000 1,
   mkRec 2 "Bob" "Laptop" "Electronics" "South" ⟨2023, 1, 12⟩ 55000 8000 1]

/-- One-row fixture whose `Sales` (hence every metric total) is zero. -/
def sampleZeroSales : List SalesRecord :=
  [mkRec 1 "Carol" "Widget" "Toys" "East" ⟨2023, 2, 1⟩ 0 0 1]

/-- Seventeen products with identical `Sales` totals: a tie class larger than
NumPy's ~16-element insertion-sort partition threshold, so the program's
default `kind='quicksort'` no longer keeps tied rows in a stable order. -/
def sampleTied17 : List SalesRecord :=
  [mkRec 1 "C01" "P01" "Cat" "R" ⟨2023, 1, 1⟩ 100 10 1,
   mkRec 2 "C02" "P02" "Cat" "R" ⟨2023, 1, 2⟩ 100 10 1,
   mkRec 3 "C03" "P03" "Cat" "R" ⟨2023, 1, 3⟩ 100 10 1,
   mkRec 4 "C04" "P04" "Cat" "R" ⟨2023, 1, 4⟩ 100 10 1,
   mkRec 5 "C05" "P05" "Cat" "R" ⟨2023, 1, 5⟩ 100 10 1,
   mkRec 6 "C06" "P06" "Cat" "R" ⟨2023, 1, 6⟩ 100 10 1,
   mkRec 7 "C07" "P07" "Cat" "R" ⟨2023, 1, 7⟩ 100 10 1,
   mkRec 8 "C08" "P08" "Cat" "R" ⟨2023, 1, 8⟩ 100 10 1,
   mkRec 9 "C09" "P09" "Cat" "R" ⟨2023, 1, 9⟩ 100 10 1,
   mkRec 10 "C10" "P10" "Cat" "R" ⟨2023, 1, 10⟩ 100 10 1,
   mkRec 11 "C11" "P11" "Cat" "R" ⟨2023, 1, 11⟩ 100 10 1,
   mkRec 12 "C12" "P12" "Cat" "R" ⟨2023, 1, 12⟩ 100 10 1,
   mkRec 13 "C13" "P13" "Cat" "R" ⟨2023, 1, 13⟩ 100 10 1,
   mkRec 14 "C14" "P14" "Cat" "R" ⟨2023, 1, 14⟩ 100 10 1,
   mkRec 15 "C15" "P15" "Cat" "R" ⟨2023, 1, 15⟩ 100 10 1,
   mkRec 16 "C16" "P16" "Cat" "R" ⟨2023, 1, 16⟩ 100 10 1,
   mkRec 17 "C17" "P17" "Cat" "R" ⟨2023, 1, 17⟩ 100 10 1]

/-! ## Basic facts about the pandas primitives -/

theorem mem_dropDuplicates {α : Type} [DecidableEq α] {l : List α} {a : α} :
    a ∈ dropDuplicates l ↔ a ∈ l := by
  induction l with
  | nil => simp [dropDuplicates]
  | cons b l ih =>
    simp only [dropDuplicates, List.mem_cons, List.mem_filter, ih]
    constructor
    · rintro (rfl | ⟨h, _⟩)
      · exact Or.inl rfl
      · exact Or.inr h
    · rintro (rfl | h)
      · exact Or.inl rfl
      · by_cases hab : a = b
        · exact Or.inl hab
        · exact Or.inr ⟨h, by simpa using hab⟩

theorem nodup_dropDuplicates {α : Type} [DecidableEq α] (l : List α) :
    (dropDuplicates l).Nodup := by
  induction l with
  | nil => simp [dropDuplicates]
  | cons b l ih =>
    rw [dropDuplicates]
    refine List.Nodup.cons (fun hb => ?_) (List.Nodup.filter _ ih)
    have hb2 := (List.mem_filter.mp hb).2
    simp at hb2

theorem dropDuplicates_eq_self {α : Type} [DecidableEq α] {l : List α}
    (h : l.Nodup) : dropDuplicates l = l := by
  induction l with
  | nil => rfl
  | cons b l ih =>
    rw [dropDuplicates, ih h.of_cons]
    have : ∀ a ∈ l, a ≠ b := fun a ha => by
      intro hab
      exact (List.nodup_cons.mp h).1 (hab ▸ ha)
    rw [List.filter_eq_self.mpr (fun a ha => by simpa using this a ha)]

theorem dropDuplicates_idem {α : Type} [DecidableEq α] (l : List α) :
    dropDuplicates (dropDuplicates l) = dropDuplicates l :=
  dropDuplicates_eq_self (nodup_dropDuplicates l)

/-! ## Claim C9: normalization is idempotent -/

theorem cleanRecord_idem (r : SalesRecord) :
    cleanRecord (cleanRecord r) = cleanRecord r := rfl

theorem map_cleanRecord_of_cleaned (df : List SalesRecord) :
    (clean_data df).map cleanRecord = clean_data df := by
  conv_rhs => rw [← List.map_id (clean_data df)]
  apply List.map_congr_left
  intro a ha
  have ha' : a ∈ (df.map cleanRecord) := mem_dropDuplicates.mp ha
  obtain ⟨r, _, rfl⟩ := List.mem_map.mp ha'
  exact cleanRecord_idem r

/-- C9.  Normalization idempotence: running `clean_data` on an
already-cleaned record set is a no-op.  The three conjuncts say: cleaning
twice equals cleaning once; on cleaned data every derived field is
recomputed to the very same value (`map cleanRecord` is the identity
there); and deduplication removes no further rows from cleaned data. -/
theorem clean_data_idempotent (df : List SalesRecord) :
    clean_data (clean_data df) = clean_data df ∧
    (clean_data df).map cleanRecord = clean_data df ∧
    dropDuplicates (clean_data df) = clean_data df := by
  have hmap := map_cleanRecord_of_cleaned df
  have hdd : dropDuplicates (clean_data df) = clean_data df :=
    dropDuplicates_eq_self (nodup_dropDuplicates _)
  refine ⟨?_, hmap, hdd⟩
  show dropDuplicates ((clean_data df).map cleanRecord) = clean_data df
  rw [hmap, hdd]

/-! ## Claim C10: empty filter selections select everything -/

/-- C10.  `apply_filters` is one `filter` whose predicate conjoins the date
check with region and category checks that are vacuously true whenever the
corresponding selection list is empty: an empty region (or category)
multiselect restricts nothing on that dimension. -/
theorem apply_filters_eq_filter (df : List SalesRecord) (s e : Date)
    (regions categories : List String) :
    apply_filters df s e regions categories = df.filter (fun r =>
      (Date.ble s r.orderDate && Date.ble r.orderDate e) &&
      (regions.isEmpty || decide (r.region ∈ regions)) &&
      (categories.isEmpty || decide (r.category ∈ categories))) := by
  unfold apply_filters filterCategories filterRegions
  by_cases hr : regions = [] <;> by_cases hc : categories = []
  · subst hr
    subst hc
    rw [if_neg (show ¬(([] : List String) ≠ []) by simp),
      if_neg (show ¬(([] : List String) ≠ []) by simp)]
    apply List.filter_congr
    intro r _
    simp
  · subst hr
    rw [if_pos (show categories ≠ [] by simpa using hc),
      if_neg (show ¬(([] : List String) ≠ []) by simp), List.filter_filter]
    have h2 : categories.isEmpty = false := by
      simpa [List.isEmpty_iff] using hc
    apply List.filter_congr
    intro r _
    simp [h2, Bool.and_comm, Bool.and_left_comm, Bool.and_assoc]
  · subst hc
    rw [if_neg (show ¬(([] : List String) ≠ []) by simp),
      if_pos (show regions ≠ [] by simpa using hr), List.filter_filter]
    have h1 : regions.isEmpty = false := by
      simpa [List.isEmpty_iff] using hr
    apply List.filter_congr
    intro r _
    simp [h1, Bool.and_comm, Bool.and_left_comm, Bool.and_assoc]
  · rw [if_pos (show categories ≠ [] by simpa using hc),
      if_pos (show regions ≠ [] by simpa using hr),
      List.filter_filter, List.filter_filter]
    have h1 : regions.isEmpty = false := by
      simpa [List.isEmpty_iff] using hr
    have h2 : categories.isEmpty = false := by
      simpa [List.isEmpty_iff] using hc
    apply List.filter_congr
    intro r _
    simp [h1, h2, Bool.and_comm, Bool.and_left_comm, Bool.and_assoc]

/-! ## Claim C5: empty filter results degrade to zero KPIs -/

/-- C5.  When the chosen filters leave no rows, every KPI of the dashboard
is the well-defined zero value: the totals fall back to `0`, and the guards
on the average order value (zero orders) and the overall margin (zero
sales) return `0` instead of dividing by zero.  In the model all functions
are total, so no exception path exists. -/
theorem render_kpis_of_empty_filter (df : List SalesRecord) (s e : Date)
    (regions categories : List String)
    (h : apply_filters df s e regions categories = []) :
    render_kpis (apply_filters df s e regions categories) =
      ⟨0, 0, 0, 0, 0, 0⟩ := by
  rw [h]
  rfl

/-! ## Grouping and conservation of sums -/

theorem sum_map_ite_eq {K : Type} [DecidableEq K] (a : K) (c : Int) :
    ∀ (ks : List K), ks.Nodup → a ∈ ks →
      (ks.map (fun x => if a = x then c else 0)).sum = c := by
  intro ks
  induction ks with
  | nil => intro _ h; cases h
  | cons b ks ih =>
    intro hnd hmem
    rw [List.map_cons, List.sum_cons]
    by_cases hab : a = b
    · subst hab
      rw [if_pos rfl]
      have hnotin : a ∉ ks := (List.nodup_cons.mp hnd).1
      have hz : (ks.map (fun x => if a = x then c else 0)).sum = 0 := by
        rw [List.sum_eq_zero]
        intro x hx
        obtain ⟨y, hy, rfl⟩ := List.mem_map.mp hx
        rw [if_neg (fun h => hnotin (by rw [h]; exact hy))]
      rw [hz, add_zero]
    · rw [if_neg hab, zero_add]
      exact ih (List.nodup_cons.mp hnd).2
        ((List.mem_cons.mp hmem).resolve_left hab)

theorem sum_buckets {α K : Type} [DecidableEq K] (key : α → K) (f : α → Int) :
    ∀ (df : List α) (ks : List K), ks.Nodup → (∀ r ∈ df, key r ∈ ks) →
      (ks.map (fun k => ((df.filter (fun r => key r = k)).map f).sum)).sum =
        (df.map f).sum := by
  intro df
  induction df with
  | nil =>
    intro ks _ _
    simp
  | cons r df ih =>
    intro ks hnd hcov
    have hstep : ∀ k : K,
        (((r :: df).filter (fun x => key x = k)).map f).sum =
          (if key r = k then f r else 0) +
            ((df.filter (fun x => key x = k)).map f).sum := by
      intro k
      rw [List.filter_cons]
      by_cases h : key r = k
      · rw [if_pos (by simpa using h), if_pos h, List.map_cons, List.sum_cons]
      · rw [if_neg (by simpa using h), if_neg h, zero_add]
    calc (ks.map (fun k => (((r :: df).filter (fun x => key x = k)).map f).sum)).sum
        = (ks.map (fun k => (if key r = k then f r else 0) +
            ((df.filter (fun x => key x = k)).map f).sum)).sum := by
          exact congrArg List.sum (List.map_congr_left (fun k _ => hstep k))
      _ = (ks.map (fun k => if key r = k then f r else 0)).sum +
            (ks.map (fun k => ((df.filter (fun x => key x = k)).map f).sum)).sum := by
          rw [List.sum_map_add]
      _ = f r + (df.map f).sum := by
          rw [sum_map_ite_eq (key r) (f r) ks hnd (hcov r (List.mem_cons_self r df)),
            ih ks hnd (fun x hx => hcov x (List.mem_cons_of_mem r hx))]
      _ = ((r :: df).map f).sum := by rw [List.map_cons, List.sum_cons]

theorem groupKeys_nodup {K : Type} [LinearOrder K] [DecidableEq K]
    (df : List SalesRecord) (key : SalesRecord → K) :
    (groupKeys df key).Nodup :=
  ((List.perm_insertionSort _ _).nodup_iff).mpr
    (nodup_dropDuplicates (df.map key))

theorem mem_groupKeys {K : Type} [LinearOrder K] [DecidableEq K]
    {df : List SalesRecord} {key : SalesRecord → K} {k : K} :
    k ∈ groupKeys df key ↔ k ∈ df.map key := by
  rw [groupKeys, List.mem_insertionSort, mem_dropDuplicates]

theorem groupKeys_sorted {K : Type} [LinearOrder K] [DecidableEq K]
    (df : List SalesRecord) (key : SalesRecord → K) :
    (groupKeys df key).Sorted (· ≤ ·) :=
  List.sorted_insertionSort _ _

theorem groupKeys_pairwise_lt {K : Type} [LinearOrder K] [DecidableEq K]
    (df : List SalesRecord) (key : SalesRecord → K) :
    (groupKeys df key).Pairwise (· < ·) := by
  have h1 : (groupKeys df key).Pairwise (· ≤ ·) := groupKeys_sorted df key
  have h2 : (groupKeys df key).Pairwise (· ≠ ·) := groupKeys_nodup df key
  exact (h1.and h2).imp (fun hab => lt_of_le_of_ne hab.1 hab.2)

theorem aggregateBy_map_fst {K : Type} [LinearOrder K] [DecidableEq K]
    (df : List SalesRecord) (key : SalesRecord → K) :
    (aggregateBy df key).map Prod.fst = groupKeys df key := by
  rw [aggregateBy, List.map_map]
  exact List.map_id _

theorem aggregateBy_pairwise_keys {K : Type} [LinearOrder K] [DecidableEq K]
    (df : List SalesRecord) (key : SalesRecord → K) :
    (aggregateBy df key).Pairwise (fun p q => p.1 < q.1) := by
  rw [aggregateBy, List.pairwise_map]
  exact groupKeys_pairwise_lt df key

theorem aggregateBy_sum (K : Type) [LinearOrder K] [DecidableEq K]
    (df : List SalesRecord) (key : SalesRecord → K) (f : SalesRecord → Int) :
    ((aggregateBy df key).map
        (fun p => (((groupOf df key p.1).map f).sum))).sum = (df.map f).sum := by
  rw [aggregateBy, List.map_map]
  have : ((groupKeys df key).map
      (fun k => ((df.filter (fun r => key r = k)).map f).sum)).sum =
        (df.map f).sum :=
    sum_buckets key f df (groupKeys df key) (groupKeys_nodup df key)
      (fun r hr => mem_groupKeys.mpr (List.mem_map_of_mem key hr))
  simpa [groupOf] using this

/-! ## Claim C3: aggregation conserves totals, one row per distinct key -/

/-- C3.  For every record set and grouping dimension: the summed `Sales`
column of the aggregate sums back to the input total (likewise `Profit` and
`Quantity`); the aggregate has pairwise-distinct group keys; and a key
appears among the output rows exactly when some input record carries it. -/
theorem aggregation_conserves_totals {K : Type} [LinearOrder K] [DecidableEq K]
    (df : List SalesRecord) (key : SalesRecord → K) :
    ((aggregateBy df key).map (fun p => p.2.sales)).sum =
        (df.map (·.sales)).sum ∧
    ((aggregateBy df key).map (fun p => p.2.profit)).sum =
        (df.map (·.profit)).sum ∧
    ((aggregateBy df key).map (fun p => p.2.quantity)).sum =
        (df.map (·.quantity)).sum ∧
    ((aggregateBy df key).map Prod.fst).Nodup ∧
    (∀ k : K, k ∈ (aggregateBy df key).map Prod.fst ↔ k ∈ df.map key) := by
  refine ⟨?_, ?_, ?_, ?_, ?_⟩
  · have h := aggregateBy_sum K df key (·.sales)
    rw [← h]
    apply congrArg List.sum
    apply List.map_congr_left
    intro p hp
    obtain ⟨k, _, rfl⟩ := List.mem_map.mp (by rw [aggregateBy] at hp; exact hp)
    rfl
  · have h := aggregateBy_sum K df key (·.profit)
    rw [← h]
    apply congrArg List.sum
    apply List.map_congr_left
    intro p hp
    obtain ⟨k, _, rfl⟩ := List.mem_map.mp (by rw [aggregateBy] at hp; exact hp)
    rfl
  · have h := aggregateBy_sum K df key (·.quantity)
    rw [← h]
    apply congrArg List.sum
    apply List.map_congr_left
    intro p hp
    obtain ⟨k, _, rfl⟩ := List.mem_map.mp (by rw [aggregateBy] at hp; exact hp)
    rfl
  · rw [aggregateBy_map_fst]
    exact groupKeys_nodup df key
  · intro k
    rw [aggregateBy_map_fst]
    exact mem_groupKeys

/-! ## Claim C2: top-N truncation -/

theorem length_pandasHead {α : Type} (n : Int) (l : List α) :
    (pandasHead n l).length =
      if 0 ≤ n then min n.toNat l.length else l.length - (-n).toNat := by
  unfold pandasHead
  split
  · rw [List.length_take]
  · rw [List.length_take, Nat.min_eq_left (Nat.sub_le _ _)]

theorem length_product_analysis (df : List SalesRecord) :
    (product_analysis df).length = distinct_group_count df (·.productName) := by
  unfold product_analysis sort_values_desc distinct_group_count aggregateBy
    groupKeys
  rw [List.length_insertionSort, List.length_map, List.length_insertionSort]

theorem length_customer_analysis (df : List SalesRecord) :
    (customer_analysis df).length = distinct_group_count df (·.customerName) := by
  unfold customer_analysis sort_values_desc distinct_group_count aggregateBy
    groupKeys
  rw [List.length_insertionSort, List.length_map, List.length_insertionSort]

/-- C2 (amended).  `top_n` truncation: the truncated analysis is an initial
segment of the full descending-sorted aggregate.  For `N ≥ 0` its length is
`min N distinct_group_count` (so `N = 0` yields the empty sequence and an
over-large `N` yields all groups, without error); but for `N < 0`, pandas
`head` keeps all rows except the last `|N|` — it does not return the empty
sequence the claim asserts for negative `N`. -/
theorem top_n_truncation (df : List SalesRecord) (n : Int) :
    top_products_analysis df n <+: product_analysis df ∧
    (top_products_analysis df n).length =
      (if 0 ≤ n then min n.toNat (distinct_group_count df (·.productName))
       else distinct_group_count df (·.productName) - (-n).toNat) ∧
    top_customers_analysis df n <+: customer_analysis df ∧
    (top_customers_analysis df n).length =
      (if 0 ≤ n then min n.toNat (distinct_group_count df (·.customerName))
       else distinct_group_count df (·.customerName) - (-n).toNat) := by
  refine ⟨?_, ?_, ?_, ?_⟩
  · show pandasHead n (product_analysis df) <+: product_analysis df
    unfold pandasHead
    split
    · exact List.take_prefix _ _
    · exact List.take_prefix _ _
  · show (pandasHead n (product_analysis df)).length = _
    rw [length_pandasHead, length_product_analysis]
  · show pandasHead n (customer_analysis df) <+: customer_analysis df
    unfold pandasHead
    split
    · exact List.take_prefix _ _
    · exact List.take_prefix _ _
  · show (pandasHead n (customer_analysis df)).length = _
    rw [length_pandasHead, length_customer_analysis]

/-- C2 (counterexample).  With two distinct products and `top_n = -1` the
truncated result has one row, not the empty sequence the claim requires for
every `N ≤ 0`: `df.head(-1)` keeps all but the last row. -/
theorem top_n_negative_not_empty :
    top_products_analysis sampleTwo (-1) ≠ [] ∧
    (top_products_analysis sampleTwo (-1)).length = 1 := by
  have hlen : (top_products_analysis sampleTwo (-1)).length = 1 := by
    show (pandasHead (-1) (product_analysis sampleTwo)).length = 1
    rw [length_pandasHead, length_product_analysis]
    decide
  refine ⟨fun h => ?_, hlen⟩
  rw [h] at hlen
  exact absurd hlen (by decide)

/-! ## Claim C8: monthly trend grouped by (Year, Month), chronological -/

theorem monthKey_lt_iff (a b : MonthKey) :
    a < b ↔ (a.year < b.year ∨ (a.year = b.year ∧ (a.month < b.month ∨
      (a.month = b.month ∧ a.monthName < b.monthName)))) := by
  show a.lexKey < b.lexKey ↔ _
  rw [MonthKey.lexKey, MonthKey.lexKey, Prod.Lex.lt_iff, Prod.Lex.lt_iff]

theorem monthly_key_coherent {df : List SalesRecord}
    (hcoh : ∀ r ∈ df, r.monthName = monthNameOf r.month)
    {p : MonthKey × AggRow} (hp : p ∈ monthly_trend_analysis df) :
    p.1.monthName = monthNameOf p.1.month := by
  have h1 : p.1 ∈ (aggregateBy df
      (fun r => MonthKey.mk r.year r.month r.monthName)).map Prod.fst :=
    List.mem_map_of_mem Prod.fst hp
  rw [aggregateBy_map_fst] at h1
  obtain ⟨r, hr, hk⟩ := List.mem_map.mp (mem_groupKeys.mp h1)
  rw [← hk]
  exact hcoh r hr

/-- C8.  The monthly trend groups by the `(Year, Month, MonthName)` triple —
with `MonthName` determined by `Month`, exactly the `(Year, Month)` pair —
so same-numbered months of different years occupy distinct rows (first
conjunct: the strict chronological order makes all row keys pairwise
distinct in `(Year, Month)`), the rows come in ascending `(Year, Month)`
order (unlike the Sales-descending analyses), and a `(Year, Month)` pair
has a row exactly when some input record carries it. -/
theorem monthly_trend_chronological (df : List SalesRecord)
    (hcoh : ∀ r ∈ df, r.monthName = monthNameOf r.month) :
    (monthly_trend_analysis df).Pairwise (fun p q =>
      p.1.year < q.1.year ∨ (p.1.year = q.1.year ∧ p.1.month < q.1.month)) ∧
    (∀ y m, (∃ p ∈ monthly_trend_analysis df, p.1.year = y ∧ p.1.month = m) ↔
      (∃ r ∈ df, r.year = y ∧ r.month = m)) := by
  constructor
  · have hpw := aggregateBy_pairwise_keys df
      (fun r => MonthKey.mk r.year r.month r.monthName)
    have hpw' : (monthly_trend_analysis df).Pairwise (fun p q => p.1 < q.1) := hpw
    refine List.Pairwise.imp_of_mem (fun {p q} hp hq hlt => ?_) hpw'
    have hpc : p.1.monthName = monthNameOf p.1.month :=
      monthly_key_coherent hcoh hp
    have hqc : q.1.monthName = monthNameOf q.1.month :=
      monthly_key_coherent hcoh hq
    rcases (monthKey_lt_iff p.1 q.1).mp hlt with h | ⟨hy, h2⟩
    · exact Or.inl h
    · rcases h2 with h | ⟨hm, hn⟩
      · exact Or.inr ⟨hy, h⟩
      · rw [hpc, hqc, hm] at hn
        exact absurd hn (lt_irrefl _)
  · intro y m
    constructor
    · rintro ⟨p, hp, hy, hm⟩
      have h1 : p.1 ∈ (aggregateBy df
          (fun r => MonthKey.mk r.year r.month r.monthName)).map Prod.fst :=
        List.mem_map_of_mem Prod.fst hp
      rw [aggregateBy_map_fst] at h1
      obtain ⟨r, hr, hk⟩ := List.mem_map.mp (mem_groupKeys.mp h1)
      refine ⟨r, hr, ?_, ?_⟩
      · rw [← hy, ← hk]
      · rw [← hm, ← hk]
    · rintro ⟨r, hr, hy, hm⟩
      have hk : MonthKey.mk r.year r.month r.monthName ∈ groupKeys df
          (fun r => MonthKey.mk r.year r.month r.monthName) :=
        mem_groupKeys.mpr (List.mem_map_of_mem _ hr)
      refine ⟨(MonthKey.mk r.year r.month r.monthName,
        aggRowFor df (fun r => MonthKey.mk r.year r.month r.monthName)
          (MonthKey.mk r.year r.month r.monthName)), ?_, hy, hm⟩
      exact List.mem_map_of_mem _ hk

/-! ## Claim C7: ratios are computed after aggregation -/

theorem mem_aggregateBy {K : Type} [LinearOrder K] [DecidableEq K]
    {df : List SalesRecord} {key : SalesRecord → K} {p : K × AggRow}
    (hp : p ∈ aggregateBy df key) : p.2 = aggRowFor df key p.1 := by
  rw [aggregateBy] at hp
  obtain ⟨k, _, rfl⟩ := List.mem_map.mp hp
  rfl

theorem mem_attachSalesPct {K : Type} {rows : List (K × AggRow)} {p : K × PctRow}
    (hp : p ∈ attachSalesPct rows) :
    ∃ q ∈ rows, p =
      (q.1, ⟨q.2, pctDiv q.2.sales ((rows.map (·.2.sales)).sum)⟩) := by
  rw [attachSalesPct] at hp
  obtain ⟨q, hq, rfl⟩ := List.mem_map.mp hp
  exact ⟨q, hq, rfl⟩

theorem mem_sort_values_desc {β : Type} {salesOf : β → Int} {l : List β} {p : β} :
    p ∈ sort_values_desc salesOf l ↔ p ∈ l :=
  List.mem_insertionSort _

theorem sum_aggregateBy_sales {K : Type} [LinearOrder K] [DecidableEq K]
    (df : List SalesRecord) (key : SalesRecord → K) :
    ((aggregateBy df key).map (fun p => p.2.sales)).sum =
      (df.map (·.sales)).sum := by
  have h := aggregateBy_sum K df key (·.sales)
  rw [← h]
  apply congrArg List.sum
  apply List.map_congr_left
  intro p hp
  rw [mem_aggregateBy hp]
  rfl

/-- C7.  Ratio-after-aggregation: every output row's `Profit_Margin` is the
ratio of the group's *summed* `Profit` to its *summed* `Sales` (times 100,
NaN when the summed `Sales` is zero) — not an average of per-record margins —
and for the regional and category analyses every row's `Sales_Percentage` is
the row's summed `Sales` over the *total input* `Sales` (times 100; the
script divides by the sum of the aggregated column, which conserves the
input total). -/
theorem ratios_after_aggregation (df : List SalesRecord) :
    ((regional_analysis df).map (fun p => p.2.agg.profitMargin) =
      (regional_analysis df).map (fun p =>
        pctDiv ((groupOf df (·.region) p.1).map (·.profit)).sum
          ((groupOf df (·.region) p.1).map (·.sales)).sum)) ∧
    ((regional_analysis df).map (fun p => p.2.salesPercentage) =
      (regional_analysis df).map (fun p =>
        pctDiv p.2.agg.sales ((df.map (·.sales)).sum))) ∧
    ((category_analysis df).map (fun p => p.2.agg.profitMargin) =
      (category_analysis df).map (fun p =>
        pctDiv ((groupOf df (·.category) p.1).map (·.profit)).sum
          ((groupOf df (·.category) p.1).map (·.sales)).sum)) ∧
    ((category_analysis df).map (fun p => p.2.salesPercentage) =
      (category_analysis df).map (fun p =>
        pctDiv p.2.agg.sales ((df.map (·.sales)).sum))) ∧
    ((product_analysis df).map (fun p => p.2.profitMargin) =
      (product_analysis df).map (fun p =>
        pctDiv ((groupOf df (·.productName) p.1).map (·.profit)).sum
          ((groupOf df (·.productName) p.1).map (·.sales)).sum)) ∧
    ((customer_analysis df).map (fun p => p.2.profitMargin) =
      (customer_analysis df).map (fun p =>
        pctDiv ((groupOf df (·.customerName) p.1).map (·.profit)).sum
          ((groupOf df (·.customerName) p.1).map (·.sales)).sum)) := by
  refine ⟨?_, ?_, ?_, ?_, ?_, ?_⟩
  · apply List.map_congr_left
    intro p hp
    obtain ⟨q, hq, rfl⟩ := mem_attachSalesPct (mem_sort_values_desc.mp hp)
    rw [show (q.1, (⟨q.2, pctDiv q.2.sales (((aggregateBy df (·.region)).map
      (·.2.sales)).sum)⟩ : PctRow)).2.agg = q.2 from rfl, mem_aggregateBy hq]
    rfl
  · apply List.map_congr_left
    intro p hp
    obtain ⟨q, hq, rfl⟩ := mem_attachSalesPct (mem_sort_values_desc.mp hp)
    show pctDiv q.2.sales _ = pctDiv q.2.sales _
    rw [sum_aggregateBy_sales df (·.region)]
  · apply List.map_congr_left
    intro p hp
    obtain ⟨q, hq, rfl⟩ := mem_attachSalesPct (mem_sort_values_desc.mp hp)
    rw [show (q.1, (⟨q.2, pctDiv q.2.sales (((aggregateBy df (·.category)).map
      (·.2.sales)).sum)⟩ : PctRow)).2.agg = q.2 from rfl, mem_aggregateBy hq]
    rfl
  · apply List.map_congr_left
    intro p hp
    obtain ⟨q, hq, rfl⟩ := mem_attachSalesPct (mem_sort_values_desc.mp hp)
    show pctDiv q.2.sales _ = pctDiv q.2.sales _
    rw [sum_aggregateBy_sales df (·.category)]
  · apply List.map_congr_left
    intro p hp
    rw [mem_aggregateBy (mem_sort_values_desc.mp hp)]
    rfl
  · apply List.map_congr_left
    intro p hp
    rw [mem_aggregateBy (mem_sort_values_desc.mp hp)]
    rfl

/-! ## Boolean-mask selection and running sums -/

theorem getD_eq_get {α : Type} (l : List α) (d : α) (i : Nat) (h : i < l.length) :
    l.getD i d = l.get ⟨i, h⟩ := by
  rw [List.getD_eq_getElem?_getD, List.getElem?_eq_getElem h, Option.getD_some,
    List.get_eq_getElem]

theorem getD_map_of_lt {α β : Type} (f : α → β) (l : List α) (d : β) (d' : α)
    (i : Nat) (h : i < l.length) : (l.map f).getD i d = f (l.getD i d') := by
  rw [List.getD_eq_getElem?_getD, List.getElem?_map, List.getElem?_eq_getElem h,
    Option.map_some', Option.getD_some, getD_eq_get l d' i h,
    List.get_eq_getElem]

theorem maskSel_subset {α : Type} :
    ∀ (l : List α) (m : List Bool) (x : α), x ∈ maskSel l m → x ∈ l := by
  intro l
  induction l with
  | nil =>
    intro m x h
    cases m <;> simp [maskSel] at h
  | cons a l ih =>
    intro m x h
    cases m with
    | nil => simp [maskSel] at h
    | cons b m =>
      cases b with
      | false =>
        rw [maskSel] at h
        simp only [Bool.false_eq_true, if_false] at h
        exact List.mem_cons_of_mem a (ih m x h)
      | true =>
        rw [maskSel] at h
        simp only [if_true] at h
        rcases List.mem_cons.mp h with rfl | h'
        · exact List.mem_cons_self _ _
        · exact List.mem_cons_of_mem _ (ih m x h')

theorem maskSel_of_all_false {α : Type} :
    ∀ (l : List α) (m : List Bool), (∀ b ∈ m, b = false) → maskSel l m = [] := by
  intro l
  induction l with
  | nil => intro m _; cases m <;> rfl
  | cons a l ih =>
    intro m hm
    cases m with
    | nil => rfl
    | cons b m =>
      have hb : b = false := hm b (List.mem_cons_self b m)
      subst hb
      rw [maskSel]
      simp only [Bool.false_eq_true, if_false]
      exact ih m (fun b hb => hm b (List.mem_cons_of_mem _ hb))

theorem maskSel_of_all_true {α : Type} :
    ∀ (l : List α) (m : List Bool), m.length = l.length →
      (∀ b ∈ m, b = true) → maskSel l m = l := by
  intro l
  induction l with
  | nil => intro m _ _; cases m <;> rfl
  | cons a l ih =>
    intro m hlen hm
    cases m with
    | nil => exact absurd hlen (by simp)
    | cons b m =>
      have hb : b = true := hm b (List.mem_cons_self b m)
      subst hb
      rw [maskSel, if_pos rfl]
      rw [ih m (by simpa using hlen) (fun b hb => hm b (List.mem_cons_of_mem _ hb))]

theorem get_mem_maskSel {α : Type} :
    ∀ (l : List α) (m : List Bool), l.Nodup → ∀ (i : Nat) (h : i < l.length),
      i < m.length → (l.get ⟨i, h⟩ ∈ maskSel l m ↔ m.getD i false = true) := by
  intro l
  induction l with
  | nil =>
    intro m _ i h _
    exact absurd h (Nat.not_lt_zero i)
  | cons a l ih =>
    intro m hnd i h hm
    cases m with
    | nil => exact absurd hm (Nat.not_lt_zero i)
    | cons b m =>
      cases b with
      | false =>
        have hsel : maskSel (a :: l) (false :: m) = maskSel l m := by
          rw [maskSel]
          simp
        cases i with
        | zero =>
          rw [hsel, List.getD_cons_zero]
          constructor
          · intro hmem
            exact absurd (maskSel_subset l m _ hmem) (List.nodup_cons.mp hnd).1
          · intro hfalse
            exact absurd hfalse (by simp)
        | succ i =>
          rw [hsel, List.getD_cons_succ]
          exact ih m (List.nodup_cons.mp hnd).2 i (Nat.lt_of_succ_lt_succ h)
            (Nat.lt_of_succ_lt_succ hm)
      | true =>
        have hsel : maskSel (a :: l) (true :: m) = a :: maskSel l m := by
          rw [maskSel, if_pos rfl]
        cases i with
        | zero =>
          rw [hsel, List.getD_cons_zero]
          exact ⟨fun _ => rfl, fun _ => List.mem_cons_self a _⟩
        | succ i =>
          rw [hsel, List.getD_cons_succ]
          have hgl : l.get ⟨i, Nat.lt_of_succ_lt_succ h⟩ ∈ l := List.get_mem l _ _
          have hih := ih m (List.nodup_cons.mp hnd).2 i (Nat.lt_of_succ_lt_succ h)
            (Nat.lt_of_succ_lt_succ hm)
          constructor
          · intro hmem
            rcases List.mem_cons.mp hmem with heq | hmem'
            · exact absurd (heq ▸ hgl) (List.nodup_cons.mp hnd).1
            · exact hih.mp hmem'
          · intro hb
            exact List.mem_cons_of_mem a (hih.mpr hb)

theorem length_cumsumFrom (acc : Option ℚ) (l : List (Option ℚ)) :
    (cumsumFrom acc l).length = l.length := by
  induction l generalizing acc with
  | nil => rfl
  | cons x xs ih =>
    rw [cumsumFrom, List.length_cons, List.length_cons, ih]

theorem length_cumsumQFrom (acc : ℚ) (l : List ℚ) :
    (cumsumQFrom acc l).length = l.length := by
  induction l generalizing acc with
  | nil => rfl
  | cons x xs ih =>
    rw [cumsumQFrom, List.length_cons, List.length_cons, ih]

theorem cumsumFrom_map_some (c : ℚ) (l : List ℚ) :
    cumsumFrom (some c) (l.map some) = (cumsumQFrom c l).map some := by
  induction l generalizing c with
  | nil => rfl
  | cons x xs ih =>
    show cumsumFrom (some c) (some x :: xs.map some) = _
    rw [cumsumFrom, cumsumQFrom, List.map_cons]
    show some (c + x) :: cumsumFrom (some (c + x)) (xs.map some) = _
    rw [ih (c + x)]

theorem getD_cumsumQFrom :
    ∀ (l : List ℚ) (c : ℚ) (i : Nat), i < l.length →
      (cumsumQFrom c l).getD i 0 = c + (l.take (i + 1)).sum := by
  intro l
  induction l with
  | nil =>
    intro c i h
    exact absurd h (Nat.not_lt_zero i)
  | cons x xs ih =>
    intro c i h
    cases i with
    | zero =>
      rw [cumsumQFrom, List.getD_cons_zero, List.take_succ_cons, List.take_zero,
        List.sum_cons, List.sum_nil, add_zero]
    | succ i =>
      rw [cumsumQFrom, List.getD_cons_succ, ih (c + x) i (Nat.lt_of_succ_lt_succ h),
        List.take_succ_cons, List.sum_cons]
      ring

/-! ## The Pareto analyzer: structure of the percentage and cumulative lists -/

theorem pareto_data_map_fst_perm {K : Type} [LinearOrder K] [DecidableEq K]
    (df : List SalesRecord) (key : SalesRecord → K) (metric : SalesRecord → Int) :
    ((pareto_data df key metric).map Prod.fst).Perm (groupKeys df key) := by
  unfold pareto_data sort_values_desc
  have h := (List.perm_insertionSort (fun p q : K × Int => q.2 ≤ p.2)
    ((groupKeys df key).map
      (fun k => (k, ((groupOf df key k).map metric).sum)))).map Prod.fst
  rw [List.map_map] at h
  rw [show (Prod.fst ∘ fun k : K =>
    (k, (List.map metric (groupOf df key k)).sum)) = id from rfl,
    List.map_id] at h
  exact h

theorem pareto_data_pct_map_fst {K : Type} [LinearOrder K] [DecidableEq K]
    (df : List SalesRecord) (key : SalesRecord → K) (metric : SalesRecord → Int) :
    (pareto_data_pct df key metric).map Prod.fst =
      (pareto_data df key metric).map Prod.fst := by
  unfold pareto_data_pct
  rw [List.map_map]
  rfl

theorem pareto_data_pct_nodup {K : Type} [LinearOrder K] [DecidableEq K]
    (df : List SalesRecord) (key : SalesRecord → K) (metric : SalesRecord → Int) :
    (pareto_data_pct df key metric).Nodup := by
  apply List.Nodup.of_map Prod.fst
  rw [pareto_data_pct_map_fst]
  exact (pareto_data_map_fst_perm df key metric).nodup_iff.mpr
    (groupKeys_nodup df key)

theorem length_pareto_data_pct {K : Type} [LinearOrder K] [DecidableEq K]
    (df : List SalesRecord) (key : SalesRecord → K) (metric : SalesRecord → Int) :
    (pareto_data_pct df key metric).length =
      (pareto_values df key metric).length := by
  unfold pareto_data_pct pareto_values
  rw [List.length_map, List.length_map]

theorem length_cumulative_pct {K : Type} [LinearOrder K] [DecidableEq K]
    (df : List SalesRecord) (key : SalesRecord → K) (metric : SalesRecord → Int) :
    (cumulative_pct df key metric).length =
      (pareto_data_pct df key metric).length := by
  unfold cumulative_pct cumsum
  rw [length_cumsumFrom, List.length_map]

theorem pareto_values_sum {K : Type} [LinearOrder K] [DecidableEq K]
    (df : List SalesRecord) (key : SalesRecord → K) (metric : SalesRecord → Int) :
    (pareto_values df key metric).sum = pareto_total df key metric := rfl

theorem pareto_values_sorted_desc {K : Type} [LinearOrder K] [DecidableEq K]
    (df : List SalesRecord) (key : SalesRecord → K) (metric : SalesRecord → Int) :
    (pareto_values df key metric).Pairwise (fun a b => b ≤ a) := by
  unfold pareto_values pareto_data sort_values_desc
  haveI hTot : IsTotal (K × Int) (fun p q => q.2 ≤ p.2) :=
    ⟨fun a b => le_total b.2 a.2⟩
  haveI hTr : IsTrans (K × Int) (fun p q => q.2 ≤ p.2) :=
    ⟨fun _ _ _ h1 h2 => le_trans h2 h1⟩
  exact List.Pairwise.map _ (fun _ _ h => h) (List.sorted_insertionSort _ _)

theorem pareto_data_pct_snd_of_ne {K : Type} [LinearOrder K] [DecidableEq K]
    (df : List SalesRecord) (key : SalesRecord → K) (metric : SalesRecord → Int)
    (hT : pareto_total df key metric ≠ 0) :
    (pareto_data_pct df key metric).map (·.2) =
      ((pareto_values df key metric).map
        (fun v : Int => (v : ℚ) /
          ((pareto_total df key metric : Int) : ℚ) * 100)).map some := by
  unfold pareto_data_pct pareto_values
  rw [List.map_map, List.map_map, List.map_map]
  apply List.map_congr_left
  intro p _
  show pctDiv p.2 (pareto_total df key metric) = _
  rw [pctDiv, if_neg hT]
  rfl

theorem cumulative_pct_of_ne {K : Type} [LinearOrder K] [DecidableEq K]
    (df : List SalesRecord) (key : SalesRecord → K) (metric : SalesRecord → Int)
    (hT : pareto_total df key metric ≠ 0) :
    cumulative_pct df key metric =
      (cumsumQFrom 0 ((pareto_values df key metric).map
        (fun v : Int => (v : ℚ) /
          ((pareto_total df key metric : Int) : ℚ) * 100))).map some := by
  unfold cumulative_pct cumsum
  rw [pareto_data_pct_snd_of_ne df key metric hT, cumsumFrom_map_some]

theorem getD_cumulative_pct {K : Type} [LinearOrder K] [DecidableEq K]
    (df : List SalesRecord) (key : SalesRecord → K) (metric : SalesRecord → Int)
    (hT : pareto_total df key metric ≠ 0)
    (i : Nat) (h : i < (pareto_values df key metric).length) :
    (cumulative_pct df key metric).getD i none =
      some (cumulative_exact df key metric i) := by
  rw [cumulative_pct_of_ne df key metric hT]
  have hq : i < ((pareto_values df key metric).map
      (fun v : Int => (v : ℚ) /
        ((pareto_total df key metric : Int) : ℚ) * 100)).length := by
    rw [List.length_map]
    exact h
  have hlen : i < (cumsumQFrom 0 ((pareto_values df key metric).map
      (fun v : Int => (v : ℚ) /
        ((pareto_total df key metric : Int) : ℚ) * 100))).length := by
    rw [length_cumsumQFrom]
    exact hq
  rw [getD_map_of_lt some _ none 0 i hlen, getD_cumsumQFrom _ 0 i hq, zero_add]
  unfold cumulative_exact
  rw [← List.map_take]

/-- The main boundary fact: positionally, an entry of the percentage series
belongs to `threshold_80` exactly when the exact inclusive cumulative
percentage at its position is at most 80. -/
theorem mem_threshold_80_iff {K : Type} [LinearOrder K] [DecidableEq K]
    (df : List SalesRecord) (key : SalesRecord → K) (metric : SalesRecord → Int)
    (hT : pareto_total df key metric ≠ 0)
    (i : Nat) (h : i < (pareto_data_pct df key metric).length) :
    ((pareto_data_pct df key metric).get ⟨i, h⟩ ∈ threshold_80 df key metric ↔
      cumulative_exact df key metric i ≤ 80) := by
  unfold threshold_80
  rw [get_mem_maskSel _ _ (pareto_data_pct_nodup df key metric) i h
    (by rw [List.length_map, length_cumulative_pct]; exact h)]
  have hv : i < (pareto_values df key metric).length := by
    rw [← length_pareto_data_pct df key metric]
    exact h
  rw [getD_map_of_lt _ _ false none i (by rw [length_cumulative_pct]; exact h),
    getD_cumulative_pct df key metric hT i hv]
  show decide (cumulative_exact df key metric i ≤ 80) = true ↔ _
  exact decide_eq_true_iff

/-! ## The degenerate Pareto case: a first share above 80% -/

theorem sum_nonpos_of_all {l : List ℚ} (h : ∀ x ∈ l, x ≤ 0) : l.sum ≤ 0 := by
  induction l with
  | nil => simp
  | cons x xs ih =>
    rw [List.sum_cons]
    have h1 := h x (List.mem_cons_self x xs)
    have h2 := ih (fun y hy => h y (List.mem_cons_of_mem x hy))
    linarith

theorem prefix_sum_gt_80 (a : ℚ) (l : List ℚ)
    (hp : (a :: l).Pairwise (fun x y => y ≤ x))
    (hsum : (a :: l).sum = 100) (ha : 80 < a) (k : Nat) :
    80 < ((a :: l).take (k + 1)).sum := by
  rw [List.take_succ_cons, List.sum_cons]
  have hsplit := List.sum_take_add_sum_drop l k
  rw [List.sum_cons] at hsum
  by_cases hd : (l.drop k).sum ≤ 0
  · linarith
  · push_neg at hd
    have hex : ∃ x ∈ l.drop k, 0 < x := by
      by_contra hno
      push_neg at hno
      exact absurd (sum_nonpos_of_all hno) (not_le.mpr hd)
    obtain ⟨x, hx, hxpos⟩ := hex
    have hcross : ∀ y ∈ l.take k, ∀ z ∈ l.drop k, z ≤ y := by
      have hpl : (l.take k ++ l.drop k).Pairwise (fun x y => y ≤ x) := by
        rw [List.take_append_drop]
        exact hp.of_cons
      exact (List.pairwise_append.mp hpl).2.2
    have htnn : 0 ≤ (l.take k).sum := by
      apply List.sum_nonneg
      intro y hy
      exact le_trans (le_of_lt hxpos) (hcross y hy x hx)
    linarith

theorem length_eq_one_of_neg_total (v : List Int)
    (hp : v.Pairwise (fun a b => b ≤ a)) (hneg : v.sum < 0)
    (hfirst : 80 < ((v.headI : ℚ) / ((v.sum : Int) : ℚ) * 100)) :
    v.length = 1 := by
  cases v with
  | nil => simp at hneg
  | cons a rest =>
    have hTq : (((a :: rest).sum : Int) : ℚ) < 0 := by exact_mod_cast hneg
    have hub : ∀ x ∈ a :: rest, x ≤ a := by
      intro x hx
      rcases List.mem_cons.mp hx with rfl | hx'
      · exact le_refl x
      · exact List.rel_of_pairwise_cons hp hx'
    have hsum_le : (a :: rest).sum ≤ (a :: rest).length • a :=
      List.sum_le_card_nsmul _ a hub
    have hsum_leq : (((a :: rest).sum : Int) : ℚ) ≤
        (((a :: rest).length : Nat) : ℚ) * (a : ℚ) := by
      rw [nsmul_eq_mul] at hsum_le
      exact_mod_cast hsum_le
    have hfq : (a : ℚ) * 100 < 80 * (((a :: rest).sum : Int) : ℚ) := by
      have h1 : ((a : ℚ)) / (((a :: rest).sum : Int) : ℚ) * 100 =
          ((a : ℚ) * 100) / (((a :: rest).sum : Int) : ℚ) := by ring
      rw [show (((a :: rest).headI : Int) : ℚ) = (a : ℚ) from rfl, h1] at hfirst
      exact (lt_div_iff_of_neg hTq).mp hfirst
    by_contra hne
    have hlen2 : 2 ≤ (a :: rest).length := by
      have h1 : 1 ≤ (a :: rest).length := by simp
      omega
    have hn2 : (2 : ℚ) ≤ (((a :: rest).length : Nat) : ℚ) := by exact_mod_cast hlen2
    have haneg : (a : ℚ) < 0 := by nlinarith
    have hkey : ((((a :: rest).length : Nat) : ℚ) - 2) * (a : ℚ) ≤ 0 :=
      mul_nonpos_of_nonneg_of_nonpos (by linarith) (le_of_lt haneg)
    nlinarith [hkey, hsum_leq, hfq, hTq]

theorem cumulative_exact_gt_of_first {K : Type} [LinearOrder K] [DecidableEq K]
    (df : List SalesRecord) (key : SalesRecord → K) (metric : SalesRecord → Int)
    (hT : pareto_total df key metric ≠ 0)
    (hfirst : 80 < first_pct df key metric) :
    ∀ i, i < (pareto_values df key metric).length →
      80 < cumulative_exact df key metric i := by
  intro i hi
  have hsorted := pareto_values_sorted_desc df key metric
  rcases lt_trichotomy (pareto_total df key metric) 0 with hneg | hzero | hpos
  · have h1 : (pareto_values df key metric).length = 1 := by
      apply length_eq_one_of_neg_total _ hsorted
      · rw [pareto_values_sum]
        exact hneg
      · show 80 < ((pareto_values df key metric).headI : ℚ) /
          (((pareto_values df key metric).sum : Int) : ℚ) * 100
        rw [pareto_values_sum]
        exact hfirst
    obtain ⟨v0, hv0⟩ := List.length_eq_one.mp h1
    have hv0T : v0 = pareto_total df key metric := by
      have hs := pareto_values_sum df key metric
      rw [hv0] at hs
      simpa using hs
    unfold cumulative_exact
    rw [hv0]
    have htake : ([v0] : List Int).take (i + 1) = [v0] := by
      rw [show ([v0] : List Int) = v0 :: [] from rfl, List.take_succ_cons,
        List.take_nil]
    rw [htake]
    simp only [List.map_cons, List.map_nil, List.sum_cons, List.sum_nil, add_zero]
    rw [hv0T, div_self (by exact_mod_cast hT), one_mul]
    norm_num
  · exact absurd hzero hT
  · rcases hv : pareto_values df key metric with _ | ⟨v0, vs⟩
    · rw [hv] at hi
      exact absurd hi (by simp)
    · have hTq : (0 : ℚ) < ((pareto_total df key metric : Int) : ℚ) := by
        exact_mod_cast hpos
      have hmono : ∀ a b : Int, b ≤ a →
          (b : ℚ) / ((pareto_total df key metric : Int) : ℚ) * 100 ≤
            (a : ℚ) / ((pareto_total df key metric : Int) : ℚ) * 100 := by
        intro a b hba
        have hq : (b : ℚ) ≤ (a : ℚ) := by exact_mod_cast hba
        gcongr
      have hq_sorted :
          (((v0 :: vs).map (fun v : Int => (v : ℚ) /
            ((pareto_total df key metric : Int) : ℚ) * 100))).Pairwise
            (fun x y => y ≤ x) := by
        have hs := hsorted
        rw [hv] at hs
        exact List.Pairwise.map _ (fun a b h => hmono a b h) hs
      have hq_sum : ((v0 :: vs).map (fun v : Int => (v : ℚ) /
          ((pareto_total df key metric : Int) : ℚ) * 100)).sum = 100 := by
        have hrw : ∀ v ∈ (v0 :: vs), (fun v : Int => (v : ℚ) /
            ((pareto_total df key metric : Int) : ℚ) * 100) v =
            (fun v : Int => (v : ℚ)) v * (100 / ((pareto_total df key metric : Int) : ℚ)) := by
          intro v _
          ring
        rw [List.map_congr_left hrw, List.sum_map_mul_right, ← Int.cast_list_sum]
        have hsum : (v0 :: vs).sum = pareto_total df key metric := by
          rw [← hv]
          exact pareto_values_sum df key metric
        rw [hsum, mul_comm, div_mul_cancel₀]
        exact ne_of_gt hTq
      have hq_head : 80 < (v0 : ℚ) /
          ((pareto_total df key metric : Int) : ℚ) * 100 := by
        have hh : first_pct df key metric = (v0 : ℚ) /
            ((pareto_total df key metric : Int) : ℚ) * 100 := by
          unfold first_pct
          rw [hv]
          rfl
        rw [← hh]
        exact hfirst
      have hq_cons : ((v0 :: vs).map (fun v : Int => (v : ℚ) /
          ((pareto_total df key metric : Int) : ℚ) * 100)) =
          ((v0 : ℚ) / ((pareto_total df key metric : Int) : ℚ) * 100) ::
            (vs.map (fun v : Int => (v : ℚ) /
              ((pareto_total df key metric : Int) : ℚ) * 100)) := rfl
      rw [hq_cons] at hq_sorted hq_sum
      have hmain := prefix_sum_gt_80 _ _ hq_sorted hq_sum hq_head i
      unfold cumulative_exact
      rw [hv, List.map_take, hq_cons] at *
      exact hmain

theorem cumulative_pct_entries {K : Type} [LinearOrder K] [DecidableEq K]
    (df : List SalesRecord) (key : SalesRecord → K) (metric : SalesRecord → Int)
    (hT : pareto_total df key metric ≠ 0) :
    ∀ c ∈ cumulative_pct df key metric,
      ∃ i, i < (pareto_values df key metric).length ∧
        c = some (cumulative_exact df key metric i) := by
  intro c hc
  obtain ⟨⟨i, hi⟩, hg⟩ := List.mem_iff_get.mp hc
  have hiv : i < (pareto_values df key metric).length := by
    have h2 := hi
    rw [length_cumulative_pct, length_pareto_data_pct] at h2
    exact h2
  refine ⟨i, hiv, ?_⟩
  rw [← hg, ← getD_eq_get _ none i hi,
    getD_cumulative_pct df key metric hT i hiv]

/-- C1.  Pareto head/tail boundary policy: whenever the metric total is
nonzero, an entry of the percentage series is assigned to the head set
`threshold_80` exactly when the cumulative percentage evaluated up to and
including its position is `≤ 80` (first conjunct); and when the first
(largest) group's share alone already exceeds 80%, the head is empty and
the tail holds every group (second conjunct). -/
theorem pareto_head_tail_boundary {K : Type} [LinearOrder K] [DecidableEq K]
    (df : List SalesRecord) (key : SalesRecord → K) (metric : SalesRecord → Int)
    (hT : pareto_total df key metric ≠ 0) :
    (∀ (i : Nat) (h : i < (pareto_data_pct df key metric).length),
      ((pareto_data_pct df key metric).get ⟨i, h⟩ ∈ threshold_80 df key metric ↔
        cumulative_exact df key metric i ≤ 80)) ∧
    (80 < first_pct df key metric →
      threshold_80 df key metric = [] ∧
        threshold_20 df key metric = pareto_data_pct df key metric) := by
  constructor
  · intro i h
    exact mem_threshold_80_iff df key metric hT i h
  · intro hfirst
    have hgt := cumulative_exact_gt_of_first df key metric hT hfirst
    constructor
    · unfold threshold_80
      apply maskSel_of_all_false
      intro b hb
      obtain ⟨c, hc, rfl⟩ := List.mem_map.mp hb
      obtain ⟨i, hiv, rfl⟩ := cumulative_pct_entries df key metric hT c hc
      show decide (cumulative_exact df key metric i ≤ 80) = false
      rw [decide_eq_false_iff_not]
      exact not_le.mpr (hgt i hiv)
    · unfold threshold_20
      apply maskSel_of_all_true
      · rw [List.length_map, length_cumulative_pct]
      · intro b hb
        obtain ⟨c, hc, rfl⟩ := List.mem_map.mp hb
        obtain ⟨i, hiv, rfl⟩ := cumulative_pct_entries df key metric hT c hc
        show decide ((80 : ℚ) < cumulative_exact df key metric i) = true
        rw [decide_eq_true_iff]
        exact hgt i hiv

/-- C1 (witness): the boundary theorem applied to the one-row fixture; its
Sales total 20000 is nonzero, discharging the hypothesis concretely. -/
theorem pareto_head_tail_boundary_witness :
    pareto_total sampleOne (·.productName) (·.sales) ≠ 0 ∧
    ((∀ (i : Nat)
        (h : i < (pareto_data_pct sampleOne (·.productName) (·.sales)).length),
      ((pareto_data_pct sampleOne (·.productName) (·.sales)).get ⟨i, h⟩ ∈
          threshold_80 sampleOne (·.productName) (·.sales) ↔
        cumulative_exact sampleOne (·.productName) (·.sales) i ≤ 80)) ∧
    (80 < first_pct sampleOne (·.productName) (·.sales) →
      threshold_80 sampleOne (·.productName) (·.sales) = [] ∧
        threshold_20 sampleOne (·.productName) (·.sales) =
          pareto_data_pct sampleOne (·.productName) (·.sales))) :=
  ⟨by decide,
    pareto_head_tail_boundary sampleOne (·.productName) (·.sales) (by decide)⟩

/-- C4 (code evaluated at the failing input).  On a record set whose metric
total is zero, `pareto_analysis` does not fail: it has no zero-total check,
the float division yields NaN percentages (modelled `none`), every NaN
comparison is false, and both the head and the tail come back empty — so no
explicit error is reported, contrary to the specified error contract. -/
theorem pareto_zero_total_no_error :
    pareto_total sampleZeroSales (·.productName) (·.sales) = 0 ∧
    pareto_data_pct sampleZeroSales (·.productName) (·.sales) =
      [("Widget", none)] ∧
    threshold_80 sampleZeroSales (·.productName) (·.sales) = [] ∧
    threshold_20 sampleZeroSales (·.productName) (·.sales) = [] := by
  refine ⟨by decide, by decide, by decide, by decide⟩

/-- C5 (witness): a concrete filter selection — a date range after every
order date — leaves no rows, and the KPI renderer returns all-zero values. -/
theorem render_kpis_of_empty_filter_witness :
    apply_filters sampleOne ⟨2024, 1, 1⟩ ⟨2024, 12, 31⟩ [] [] = [] ∧
    render_kpis (apply_filters sampleOne ⟨2024, 1, 1⟩ ⟨2024, 12, 31⟩ [] []) =
      ⟨0, 0, 0, 0, 0, 0⟩ :=
  ⟨by decide, render_kpis_of_empty_filter sampleOne ⟨2024, 1, 1⟩ ⟨2024, 12, 31⟩
    [] [] (by decide)⟩

/-- C8 (witness): the two-row fixture is coherent (its `MonthName` column
matches its `Month` column), discharging the hypothesis concretely. -/
theorem monthly_trend_chronological_witness :
    (∀ r ∈ sampleTwo, r.monthName = monthNameOf r.month) ∧
    ((monthly_trend_analysis sampleTwo).Pairwise (fun p q =>
      p.1.year < q.1.year ∨ (p.1.year = q.1.year ∧ p.1.month < q.1.month)) ∧
    (∀ y m, (∃ p ∈ monthly_trend_analysis sampleTwo,
        p.1.year = y ∧ p.1.month = m) ↔
      (∃ r ∈ sampleTwo, r.year = y ∧ r.month = m))) :=
  ⟨by decide, monthly_trend_chronological sampleTwo (by decide)⟩

/-! ## Claim C6: the sort contract's tie order at a large tie class -/

/-- C6 (code evaluated at the failing input).  With 17 distinct products
whose summed `Sales` all tie at 100, the untruncated product analysis has 17
rows and every row carries the tied value, so its entire output order is
decided by how `sort_values('Sales', ascending=False)` orders one 17-element
tie class.  The pandas default `kind='quicksort'` is documented as not
stable — NumPy's introsort reorders tied entries once a partition exceeds
its ~16-element insertion-sort threshold — so at this input the program's
tie order is an unspecified introsort permutation, not the
insertion/group-key order the claim asserts.  The row *set* proved here is
faithful; the claim's tie-order clause is exactly what the code does not
guarantee. -/
theorem tied_rows_at_sort_instability_threshold :
    (product_analysis sampleTied17).length = 17 ∧
    ∀ p ∈ product_analysis sampleTied17, p.2.sales = 100 := by
  constructor
  · rw [length_product_analysis]
    decide
  · intro p hp
    obtain ⟨k, row⟩ := p
    have hmem := mem_sort_values_desc.mp hp
    have h2 := mem_aggregateBy hmem
    have h3 : k ∈ sampleTied17.map (·.productName) := by
      have h1 : k ∈ (aggregateBy sampleTied17 (·.productName)).map Prod.fst :=
        List.mem_map_of_mem Prod.fst hmem
      rw [aggregateBy_map_fst] at h1
      exact mem_groupKeys.mp h1
    show row.sales = 100
    rw [show row = aggRowFor sampleTied17 (·.productName) k from h2]
    clear hp hmem h2
    revert h3
    revert k
    decide

end SalesSpec
